import Mathlib

/-!
# Verification of the py_search A* route-finding demo

Shallow embedding of `src/py-search-performance.py`: a hand-built road network
between Brazilian cities searched with A* (best-first search on
`f(n) = g(n) + h(n)`), instrumented with node-expansion and goal-test counters.

Modelling conventions:

* City names are strings, as in the source.
* Coordinates are stored in hundredths of a degree (the source literals all
  have exactly two decimals), so they are exact integers here.
* Road distances are the source's integer kilometre weights (`ℕ`).
* `calculate_distance` multiplies a square root by 111, so its value is
  irrational; the executable search represents the f-value of a node by the
  pair `(a, x) = (100·g, 12321·N)` with meaning `f = (a + √x)/100`, where
  `N` is the integer radicand of the heuristic (`12321 = 111²`).  The
  comparator `leAddSqrt` decides `a + √x ≤ b + √y` exactly over the reals,
  which is the idealisation of the source's float comparison; the bridging
  lemmas relate these pairs to the real-valued `calculate_distance`.
* A Python `KeyError` is modelled as `Except.error RunError.keyError`;
  the search loop carries fuel (the loop in the source terminates only by
  the positive-weight argument, which the concrete runs below stay inside).
* The search engine itself (`py_search.informed.best_first_search`,
  `py_search.base.Node` / `AnnotatedProblem`) is a third-party library whose
  code is not part of this repository; it is modelled from the spec's
  algorithm description (§4.2): a priority frontier ordered by ascending
  `f`, goal test on pop, expansion counters, no closed list.
-/

namespace PySearchAStar

abbrev City := String

/-- The `brazil_cities` table: city → (lat, lon) in hundredths of a degree.
Source coordinates such as `-23.55` become `-2355` exactly. -/
def brazil_cities : List (City × Int × Int) := [
  ("São Paulo", -2355, -4663),
  ("Rio de Janeiro", -2291, -4321),
  ("Belo Horizonte", -1992, -4393),
  ("Brasília", -1579, -4788),
  ("Salvador", -1297, -3848),
  ("Fortaleza", -373, -3853),
  ("Manaus", -312, -6002),
  ("Porto Alegre", -3003, -5123),
  ("Curitiba", -2543, -4927),
  ("Recife", -805, -3490),
  ("Belém", -146, -4850)]

/-- The `roads` adjacency table, exactly as hardcoded in the source. -/
def roads : List (City × List (City × Nat)) := [
  ("São Paulo", [("Rio de Janeiro", 430), ("Belo Horizonte", 580), ("Curitiba", 410), ("Brasília", 1020)]),
  ("Rio de Janeiro", [("São Paulo", 430), ("Belo Horizonte", 440), ("Brasília", 1170), ("Salvador", 1630)]),
  ("Belo Horizonte", [("São Paulo", 580), ("Rio de Janeiro", 440), ("Brasília", 730), ("Salvador", 1370)]),
  ("Brasília", [("São Paulo", 1020), ("Rio de Janeiro", 1170), ("Belo Horizonte", 730), ("Salvador", 1440), ("Fortaleza", 2200), ("Manaus", 3450)]),
  ("Salvador", [("Rio de Janeiro", 1630), ("Belo Horizonte", 1370), ("Brasília", 1440), ("Recife", 840), ("Fortaleza", 1200)]),
  ("Fortaleza", [("Salvador", 1200), ("Brasília", 2200), ("Recife", 810), ("Belém", 1400)]),
  ("Manaus", [("Brasília", 3450), ("Belém", 1300)]),
  ("Porto Alegre", [("São Paulo", 1130), ("Curitiba", 710)]),
  ("Curitiba", [("São Paulo", 410), ("Porto Alegre", 710)]),
  ("Recife", [("Salvador", 840), ("Fortaleza", 810)]),
  ("Belém", [("Manaus", 1300), ("Fortaleza", 1400)])]

/-- The city identifiers, in table order. -/
def cityNames : List City := brazil_cities.map Prod.fst

/-- `neighbors(city)` (spec §4.1): the adjacency entry of a city, or the empty
list when the city has no entry (the source's `if current in roads` guard). -/
def neighborsOf (c : City) : List (City × Nat) := (roads.lookup c).getD []

/-- Exact real-valued transcription of `calculate_distance`: Euclidean distance
between the two coordinate pairs (in degrees) times 111.  A failed table lookup
(`KeyError` in Python) is `none`. -/
noncomputable def calculate_distance (city1 city2 : City) : Option ℝ :=
  match brazil_cities.lookup city1, brazil_cities.lookup city2 with
  | some (lat1, lon1), some (lat2, lon2) =>
      some (Real.sqrt (((lat2 : ℝ)/100 - (lat1 : ℝ)/100)^2
              + ((lon2 : ℝ)/100 - (lon1 : ℝ)/100)^2) * 111)
  | _, _ => none

/-- The integer radicand of `calculate_distance` in hundredths²:
`N = (100·Δlat)² + (100·Δlon)²`, so that the distance is `111·√N/100`. -/
def distRadicand (city1 city2 : City) : Option Nat :=
  match brazil_cities.lookup city1, brazil_cities.lookup city2 with
  | some (lat1, lon1), some (lat2, lon2) =>
      some (((lat2 - lat1)^2 + (lon2 - lon1)^2)).toNat
  | _, _ => none

/-- Search node (py_search `Node`, spec §3 `SearchNode`): current city, the
incrementally maintained cumulative cost, an ownership link to the parent,
and the action string that produced the node. -/
inductive SNode where
  | root (state : City)
  | child (state : City) (ncost : Nat) (parent : SNode) (action : String)
deriving DecidableEq

/-- `Node.state`. -/
def SNode.state : SNode → City
  | .root s => s
  | .child s _ _ _ => s

/-- `Node.cost()`: 0 at the root, the stored incremental cost otherwise. -/
def SNode.cost : SNode → Nat
  | .root _ => 0
  | .child _ c _ _ => c

/-- `Node.path()`: the action strings from the root to this node, in order. -/
def SNode.path : SNode → List String
  | .root _ => []
  | .child _ _ p a => p.path ++ [a]

/-- The loop body of `RouteProblem.successors`: walk the adjacency list,
appending one child per neighbor to the accumulator (`result.append`). -/
def successorsLoop (node : SNode) : List (City × Nat) → List SNode → List SNode
  | [], acc => acc
  | (city, distance) :: rest, acc =>
      successorsLoop node rest
        (acc ++ [SNode.child city (node.cost + distance) node ("drive to " ++ city)])

/-- `RouteProblem.successors`: one child per neighbor of the node's city,
with cumulative cost `parent.cost + distance`; no adjacency entry ⇒ no children. -/
def successors (node : SNode) : List SNode :=
  match roads.lookup node.state with
  | some lst => successorsLoop node lst []
  | none => []

/-- Decide `a + √x ≤ b + √y` over ℝ for naturals, by case analysis and
squaring.  Used to order the frontier by exact f-values. -/
def leAddSqrt (a x b y : Nat) : Bool :=
  if a ≤ b then
    let d := b - a
    if x ≤ d^2 + y then true
    else (x - d^2 - y)^2 ≤ 4 * d^2 * y
  else
    let d := a - b
    if x + d^2 ≤ y then 4 * d^2 * x ≤ (y - x - d^2)^2 else false

/-- A frontier key `(a, x)` denotes the f-value `(a + √x)/100`. -/
abbrev FKey := Nat × Nat

/-- Key comparison: `k₁`'s f-value is at most `k₂`'s. -/
def leKey (k1 k2 : FKey) : Bool := leAddSqrt k1.1 k1.2 k2.1 k2.2

/-- `node_value` (`RouteProblem.node_value`): the key encoding
`f(n) = n.cost() + calculate_distance(n.state, goal)`, namely
`a = 100·g` and `x = 12321·N`; `none` when the heuristic raises. -/
def nodeKey (goal : City) (n : SNode) : Option FKey :=
  (distRadicand n.state goal).map (fun N => (100 * n.cost, 12321 * N))

/-- The priority frontier, a pairing heap keyed by f-value (the spec's design
notes call for a min-heap and leave tie order unspecified).  A heap is never
empty; the empty frontier is `Option.none` at the use site. -/
inductive PHeap where
  | node (key : FKey) (val : SNode) (children : List PHeap)

/-- Heap merge: the root of smaller f-value adopts the other heap. -/
def pmerge (h1 h2 : PHeap) : PHeap :=
  match h1, h2 with
  | .node k1 v1 c1, .node k2 v2 c2 =>
      if leKey k1 k2 then .node k1 v1 (.node k2 v2 c2 :: c1)
      else .node k2 v2 (.node k1 v1 c1 :: c2)

/-- Two-pass pairing-heap combination of the children after a pop. -/
def mergePairs : List PHeap → Option PHeap
  | [] => none
  | [h] => some h
  | h1 :: h2 :: rest =>
      match mergePairs rest with
      | none => some (pmerge h1 h2)
      | some h => some (pmerge (pmerge h1 h2) h)

/-- Push one keyed node onto the frontier. -/
def pushNode (front : Option PHeap) (n : SNode) (k : FKey) : Option PHeap :=
  match front with
  | none => some (.node k n [])
  | some h => some (pmerge h (.node k n []))

/-- Push each child onto the frontier, computing its key; a child whose
heuristic raises (`KeyError`) aborts the push. -/
def pushAll (goal : City) : List SNode → Option PHeap → Option (Option PHeap)
  | [], front => some front
  | c :: cs, front =>
      match nodeKey goal c with
      | none => none
      | some k => pushAll goal cs (pushNode front c k)

/-- How a modelled call can fail: an uncaught Python `KeyError`, or fuel
exhaustion (a model artifact; the concrete runs below never hit it). -/
inductive RunError where
  | keyError
  | fuelOut
deriving DecidableEq

/-- The best-first-search loop, modelled from spec §4.2: pop the lowest-f
node, count a goal test, succeed if it is the goal; otherwise count an
expansion and push all successors.  An empty frontier is exhaustion
(`StopIteration` in the source).  Returns (solution?, nodes_expanded,
goal_tests). -/
def bfsLoop (goal : City) : Nat → Option PHeap → Nat → Nat →
    Except RunError (Option SNode × Nat × Nat)
  | _, none, ne, gt => .ok (none, ne, gt)
  | 0, some _, _, _ => .error .fuelOut
  | fuel + 1, some (.node _ n ch), ne, gt =>
      if n.state = goal then .ok (some n, ne, gt + 1)
      else
        match pushAll goal (successors n) (mergePairs ch) with
        | none => .error .keyError
        | some front => bfsLoop goal fuel front (ne + 1) (gt + 1)

/-- The result record built by `run_astar_test` (wall-clock time omitted:
not representable in this embedding).  `path_cost` is `none`, modelling
`float('inf')`, on the no-solution branch. -/
structure AResult where
  solution_found : Bool
  path_cost : Option Nat
  path_length : Nat
  goal_tests : Nat
  nodes_expanded : Nat
  path : List String
deriving DecidableEq

instance : DecidableEq (Except RunError AResult) := fun a b =>
  match a, b with
  | .ok x, .ok y =>
      if h : x = y then isTrue (by rw [h]) else isFalse (by simp [h])
  | .error x, .error y =>
      if h : x = y then isTrue (by rw [h]) else isFalse (by simp [h])
  | .ok _, .error _ => isFalse (by simp)
  | .error _, .ok _ => isFalse (by simp)

/-- `run_astar_test`: seed the frontier with a root node at the start city
(computing its priority key seeds the heuristic, which can raise `KeyError`),
run the loop, and shape the result record exactly as the source does on the
success and `StopIteration` branches. -/
def run_astar_test (start_city goal_city : City) (fuel : Nat) :
    Except RunError AResult :=
  match nodeKey goal_city (SNode.root start_city) with
  | none => .error .keyError
  | some k =>
    match bfsLoop goal_city fuel (some (.node k (SNode.root start_city) [])) 0 0 with
    | .error e => .error e
    | .ok (some sol, ne, gt) =>
        .ok { solution_found := true
              path_cost := some sol.cost
              path_length := sol.path.length
              goal_tests := gt
              nodes_expanded := ne
              path := sol.path }
    | .ok (none, ne, gt) =>
        .ok { solution_found := false
              path_cost := none
              path_length := 0
              goal_tests := gt
              nodes_expanded := ne
              path := [] }

/-- Two consecutive calls on the unmodified graph: the tables are global
immutable definitions, and each call builds a fresh problem and fresh
counters, so the pair records both results of the back-to-back calls. -/
def runTwice (start_city goal_city : City) (fuel : Nat) :
    Except RunError AResult × Except RunError AResult :=
  (run_astar_test start_city goal_city fuel,
   run_astar_test start_city goal_city fuel)

/-!
## Reference minimum walk cost

The claim "path cost equal to the minimum sum of edge weights over all paths
in the roads adjacency table" is formalised with `WalkCost` (cost of some
path in the table) and certified against a Bellman–Ford-style relaxation
table, whose soundness/completeness/stability give the true minimum.
-/

/-- `WalkCost a g c`: the roads table contains a path from `a` to `g` whose
edge weights sum to `c`. -/
inductive WalkCost : City → City → Nat → Prop
  | nil (c : City) : WalkCost c c 0
  | cons {a g b : City} {w c : Nat} :
      (b, w) ∈ neighborsOf a → WalkCost b g c → WalkCost a g (w + c)

/-- Minimum of two optional costs (`none` = unreachable/∞). -/
def omin : Option Nat → Option Nat → Option Nat
  | none, o => o
  | some a, none => some a
  | some a, some b => some (min a b)

/-- Add an edge weight to an optional cost. -/
def oadd (w : Nat) : Option Nat → Option Nat := Option.map (w + ·)

/-- Read a distance table at a city (`none` when the city has no row). -/
def dval (D : List (City × Option Nat)) (v : City) : Option Nat :=
  (D.lookup v).getD none

/-- One relaxation at `v`: keep the previous value or improve through any
outgoing edge `v → b`. -/
def relaxAt (D : List (City × Option Nat)) (v : City) : Option Nat :=
  (neighborsOf v).foldl (fun acc p => omin acc (oadd p.2 (dval D p.1))) (dval D v)

/-- `distTab g k` maps each city `v` to the minimum cost of a path `v → g`
using at most `k` edges (`none` if there is none). -/
def distTab (g : City) : Nat → List (City × Option Nat)
  | 0 => cityNames.map (fun v => (v, if v = g then some 0 else none))
  | k + 1 =>
      let D := distTab g k
      cityNames.map (fun v => (v, relaxAt D v))

/-- The certified minimum cost of a path from `v` to `g` (11 rounds suffice:
the table is stable from round 11 on). -/
def minCostTo (g v : City) : Option Nat := dval (distTab g 11) v

/-- Concrete check for one (start, goal) pair: the search succeeds within
fuel 300 and reports exactly the certified minimum path cost. -/
def checkPair (s g : City) : Bool :=
  match run_astar_test s g 300 with
  | .ok r => r.solution_found && (r.path_cost == minCostTo g s)
  | .error _ => false

/-- `c` is the minimum path cost from `s` to `g` in the roads table. -/
def IsMinWalkCost (s g : City) (c : Nat) : Prop :=
  WalkCost s g c ∧ ∀ c', WalkCost s g c' → c ≤ c'

/-- `oLE o o'`: optional cost `o` is at most `o'` (`none` = ∞; in particular
`o` is `some` whenever `o'` is). -/
def oLE (o o' : Option Nat) : Prop :=
  ∀ c, o' = some c → ∃ d, o = some d ∧ d ≤ c

/-- Every node stored in the heap carries a city of the fixture (used to show
the frontier can never empty out: such cities always have neighbors). -/
inductive HeapGood : PHeap → Prop where
  | node {k : FKey} {n : SNode} {ch : List PHeap} :
      n.state ∈ cityNames → (∀ h ∈ ch, HeapGood h) → HeapGood (.node k n ch)

/-!
## Association-list lemmas
-/

theorem lookup_mem {α β : Type} [BEq α] [LawfulBEq α] {k : α} {v : β} :
    ∀ {l : List (α × β)}, l.lookup k = some v → (k, v) ∈ l := by
  intro l
  induction l with
  | nil => intro h; simp [List.lookup] at h
  | cons p rest ih =>
    intro h
    rw [List.lookup] at h
    rcases hbe : k == p.1 with _ | _
    · rw [hbe] at h
      exact List.mem_cons_of_mem _ (ih h)
    · rw [hbe] at h
      obtain rfl : p.2 = v := by simpa using h
      obtain rfl : k = p.1 := by simpa using hbe
      exact List.mem_cons_self _ _

theorem lookup_some_mem_keys {α β : Type} [BEq α] [LawfulBEq α] {k : α} {v : β}
    {l : List (α × β)} (h : l.lookup k = some v) : k ∈ l.map Prod.fst :=
  List.mem_map.mpr ⟨(k, v), lookup_mem h, rfl⟩

theorem lookup_map_graph {α β : Type} [BEq α] [LawfulBEq α] [DecidableEq α]
    (f : α → β) (v : α) :
    ∀ l : List α,
      (l.map fun u => (u, f u)).lookup v = if v ∈ l then some (f v) else none := by
  intro l
  induction l with
  | nil => simp [List.lookup]
  | cons u rest ih =>
    rw [List.map_cons, List.lookup]
    rcases hbe : v == u with _ | _
    · have hne : ¬v = u := by simpa using hbe
      simp [ih, hne]
    · have he : v = u := by simpa using hbe
      simp [he]

/-!
## Lemmas on optional minima
-/

theorem oLE_refl (o : Option Nat) : oLE o o := fun c h => ⟨c, h, le_refl c⟩

theorem oLE_trans {o1 o2 o3 : Option Nat} (h12 : oLE o1 o2) (h23 : oLE o2 o3) :
    oLE o1 o3 := by
  intro c h3
  obtain ⟨d, hd, hdc⟩ := h23 c h3
  obtain ⟨e, he, hed⟩ := h12 d hd
  exact ⟨e, he, le_trans hed hdc⟩

theorem omin_le_left (a b : Option Nat) : oLE (omin a b) a := by
  intro c h
  cases a with
  | none => simp at h
  | some x =>
    have hx : x = c := Option.some.inj h
    cases b with
    | none => exact ⟨x, rfl, le_of_eq hx⟩
    | some y => exact ⟨min x y, rfl, hx ▸ min_le_left x y⟩

theorem omin_le_right (a b : Option Nat) : oLE (omin a b) b := by
  intro c h
  cases b with
  | none => simp at h
  | some y =>
    have hy : y = c := Option.some.inj h
    cases a with
    | none => exact ⟨y, rfl, le_of_eq hy⟩
    | some x => exact ⟨min x y, rfl, hy ▸ min_le_right x y⟩

theorem omin_eq_or (a b : Option Nat) : omin a b = a ∨ omin a b = b := by
  cases a with
  | none => right; rfl
  | some x =>
    cases b with
    | none => left; rfl
    | some y =>
      rcases le_total x y with h | h
      · left; simp [omin, min_eq_left h]
      · right; simp [omin, min_eq_right h]

theorem foldl_omin_le_init {α : Type} (f : α → Option Nat) :
    ∀ (l : List α) (init : Option Nat),
      oLE (l.foldl (fun acc p => omin acc (f p)) init) init := by
  intro l
  induction l with
  | nil => intro init; exact oLE_refl init
  | cons p rest ih =>
    intro init
    rw [List.foldl_cons]
    exact oLE_trans (ih (omin init (f p))) (omin_le_left _ _)

theorem foldl_omin_le_mem {α : Type} (f : α → Option Nat) :
    ∀ (l : List α) (init : Option Nat) (p : α), p ∈ l →
      oLE (l.foldl (fun acc p => omin acc (f p)) init) (f p) := by
  intro l
  induction l with
  | nil => intro _ p h; exact absurd h (List.not_mem_nil p)
  | cons q rest ih =>
    intro init p hp
    rw [List.foldl_cons]
    rcases List.mem_cons.mp hp with rfl | hmem
    · exact oLE_trans (foldl_omin_le_init f rest _) (omin_le_right _ _)
    · exact ih _ p hmem

theorem foldl_omin_eq_or {α : Type} (f : α → Option Nat) :
    ∀ (l : List α) (init : Option Nat),
      l.foldl (fun acc p => omin acc (f p)) init = init ∨
        ∃ p ∈ l, l.foldl (fun acc p => omin acc (f p)) init = f p := by
  intro l
  induction l with
  | nil => intro init; left; rfl
  | cons q rest ih =>
    intro init
    rw [List.foldl_cons]
    rcases ih (omin init (f q)) with h | ⟨p, hp, h⟩
    · rcases omin_eq_or init (f q) with h' | h'
      · left; rw [h, h']
      · right; exact ⟨q, List.mem_cons_self _ _, by rw [h, h']⟩
    · right; exact ⟨p, List.mem_cons_of_mem _ hp, h⟩

/-!
## The relaxation table computes minimum path costs
-/

theorem relaxAt_eq_or (D : List (City × Option Nat)) (v : City) :
    relaxAt D v = dval D v ∨
      ∃ p ∈ neighborsOf v, relaxAt D v = oadd p.2 (dval D p.1) := by
  unfold relaxAt
  exact foldl_omin_eq_or _ _ _

theorem relaxAt_le_init (D : List (City × Option Nat)) (v : City) :
    oLE (relaxAt D v) (dval D v) := by
  unfold relaxAt
  exact foldl_omin_le_init _ _ _

theorem relaxAt_le_mem (D : List (City × Option Nat)) (v : City)
    (p : City × Nat) (hp : p ∈ neighborsOf v) :
    oLE (relaxAt D v) (oadd p.2 (dval D p.1)) := by
  unfold relaxAt
  exact foldl_omin_le_mem _ _ _ p hp

theorem roads_keys : roads.map Prod.fst = cityNames := by decide

theorem mem_of_neighbors {a b : City} {w : Nat} (h : (b, w) ∈ neighborsOf a) :
    a ∈ cityNames := by
  unfold neighborsOf at h
  cases hl : roads.lookup a with
  | none => rw [hl] at h; simp at h
  | some lst =>
    have hk := lookup_some_mem_keys hl
    rwa [roads_keys] at hk

theorem dval_distTab_zero (g v : City) (hv : v ∈ cityNames) :
    dval (distTab g 0) v = if v = g then some 0 else none := by
  show dval (cityNames.map fun u => (u, if u = g then some 0 else none)) v = _
  unfold dval
  rw [lookup_map_graph (fun u => if u = g then some 0 else none) v cityNames,
    if_pos hv]
  rfl

theorem dval_distTab_succ (g : City) (k : Nat) (v : City) (hv : v ∈ cityNames) :
    dval (distTab g (k + 1)) v = relaxAt (distTab g k) v := by
  show dval (cityNames.map fun u => (u, relaxAt (distTab g k) u)) v = _
  unfold dval
  rw [lookup_map_graph (fun u => relaxAt (distTab g k) u) v cityNames, if_pos hv]
  rfl

theorem dval_distTab_not_mem (g : City) (k : Nat) (v : City)
    (hv : v ∉ cityNames) : dval (distTab g k) v = none := by
  cases k with
  | zero =>
    show dval (cityNames.map fun u => (u, if u = g then some 0 else none)) v = _
    unfold dval
    rw [lookup_map_graph (fun u => if u = g then some 0 else none) v cityNames,
      if_neg hv]
    rfl
  | succ k =>
    show dval (cityNames.map fun u => (u, relaxAt (distTab g k) u)) v = _
    unfold dval
    rw [lookup_map_graph (fun u => relaxAt (distTab g k) u) v cityNames, if_neg hv]
    rfl

/-- Soundness: every table entry is the cost of an actual path to `g`. -/
theorem distTab_sound (g : City) :
    ∀ (k : Nat) (v : City) (c : Nat),
      dval (distTab g k) v = some c → WalkCost v g c := by
  intro k
  induction k with
  | zero =>
    intro v c h
    by_cases hv : v ∈ cityNames
    · rw [dval_distTab_zero g v hv] at h
      by_cases hgv : v = g
      · rw [if_pos hgv] at h
        have h0 : (0 : Nat) = c := Option.some.inj h
        subst hgv
        exact h0 ▸ WalkCost.nil v
      · rw [if_neg hgv] at h; simp at h
    · rw [dval_distTab_not_mem g 0 v hv] at h; simp at h
  | succ k ih =>
    intro v c h
    by_cases hv : v ∈ cityNames
    · rw [dval_distTab_succ g k v hv] at h
      rcases relaxAt_eq_or (distTab g k) v with heq | ⟨p, hp, heq⟩
      · rw [heq] at h; exact ih v c h
      · rw [heq] at h
        cases hb : dval (distTab g k) p.1 with
        | none => rw [hb] at h; simp [oadd] at h
        | some cb =>
          rw [hb] at h
          have hc : p.2 + cb = c := by simpa [oadd] using h
          have hw := ih p.1 cb hb
          have hcons := WalkCost.cons (a := v)
            (show (p.1, p.2) ∈ neighborsOf v by simpa using hp) hw
          exact hc ▸ hcons
    · rw [dval_distTab_not_mem g (k + 1) v hv] at h; simp at h

/-- The table entries only improve with more relaxation rounds. -/
theorem distTab_succ_le (g : City) (k : Nat) (v : City) :
    oLE (dval (distTab g (k + 1)) v) (dval (distTab g k) v) := by
  by_cases hv : v ∈ cityNames
  · rw [dval_distTab_succ g k v hv]
    exact relaxAt_le_init _ _
  · intro c h
    rw [dval_distTab_not_mem g k v hv] at h
    simp at h

theorem distTab_le_zero (g v : City) :
    ∀ k, oLE (dval (distTab g k) v) (dval (distTab g 0) v) := by
  intro k
  induction k with
  | zero => exact oLE_refl _
  | succ k ih => exact oLE_trans (distTab_succ_le g k v) ih

set_option maxRecDepth 100000 in
set_option maxHeartbeats 2000000 in
/-- Stability: one more relaxation round after round 11 changes nothing,
for every goal city of the fixture. -/
theorem distTab_stab_all :
    (cityNames.all fun g => distTab g 12 == distTab g 11) = true := by
  decide

theorem distTab_stab {g : City} (hg : g ∈ cityNames) :
    distTab g 12 = distTab g 11 := by
  have h := distTab_stab_all
  rw [List.all_eq_true] at h
  exact eq_of_beq (h g hg)

/-- Completeness: round 11 of the table is a lower bound on the cost of
every path to `g`. -/
theorem distTab_complete_aux :
    ∀ {v g c}, WalkCost v g c → g ∈ cityNames →
      ∃ d, dval (distTab g 11) v = some d ∧ d ≤ c := by
  intro v g c hw
  induction hw with
  | nil x =>
    intro hx
    have h0 : dval (distTab x 0) x = some 0 := by
      rw [dval_distTab_zero x x hx, if_pos rfl]
    exact distTab_le_zero x x 11 0 h0
  | @cons a gg b w cb hmem hwtail ih =>
    intro hg
    obtain ⟨db, hdb, hdbc⟩ := ih hg
    have ha : a ∈ cityNames := mem_of_neighbors hmem
    have h12 : dval (distTab gg 12) a = relaxAt (distTab gg 11) a :=
      dval_distTab_succ gg 11 a ha
    have hle := relaxAt_le_mem (distTab gg 11) a (b, w) hmem
    have hcand : oadd w (dval (distTab gg 11) b) = some (w + db) := by
      rw [hdb]; rfl
    obtain ⟨d, hd, hdle⟩ := hle (w + db) hcand
    refine ⟨d, ?_, le_trans hdle (Nat.add_le_add_left hdbc w)⟩
    calc dval (distTab gg 11) a = dval (distTab gg 12) a := by rw [distTab_stab hg]
    _ = relaxAt (distTab gg 11) a := h12
    _ = some d := hd

theorem distTab_complete {g : City} (hg : g ∈ cityNames) {v : City} {c : Nat}
    (hw : WalkCost v g c) : ∃ d, dval (distTab g 11) v = some d ∧ d ≤ c :=
  distTab_complete_aux hw hg

/-- The certified table value at round 11 is exactly the minimum path cost. -/
theorem minCostTo_spec {g : City} (hg : g ∈ cityNames) {s : City} {d : Nat}
    (h : minCostTo g s = some d) : IsMinWalkCost s g d := by
  refine ⟨distTab_sound g 11 s d h, ?_⟩
  intro c' hc'
  obtain ⟨d', hd', hle⟩ := distTab_complete hg hc'
  have : d' = d := Option.some.inj (hd'.symm.trans h)
  exact this ▸ hle

/-!
## Concrete A* runs: all 121 in-graph pairs report the minimum cost
-/

set_option maxRecDepth 1000000 in
theorem checkRow0 : (cityNames.all fun g => checkPair "São Paulo" g) = true := by
  decide

set_option maxRecDepth 1000000 in
theorem checkRow1 : (cityNames.all fun g => checkPair "Rio de Janeiro" g) = true := by
  decide

set_option maxRecDepth 1000000 in
theorem checkRow2 : (cityNames.all fun g => checkPair "Belo Horizonte" g) = true := by
  decide

set_option maxRecDepth 1000000 in
theorem checkRow3 : (cityNames.all fun g => checkPair "Brasília" g) = true := by
  decide

set_option maxRecDepth 1000000 in
theorem checkRow4 : (cityNames.all fun g => checkPair "Salvador" g) = true := by
  decide

set_option maxRecDepth 1000000 in
theorem checkRow5 : (cityNames.all fun g => checkPair "Fortaleza" g) = true := by
  decide

set_option maxRecDepth 1000000 in
theorem checkRow6 : (cityNames.all fun g => checkPair "Manaus" g) = true := by
  decide

set_option maxRecDepth 1000000 in
theorem checkRow7 : (cityNames.all fun g => checkPair "Porto Alegre" g) = true := by
  decide

set_option maxRecDepth 1000000 in
theorem checkRow8 : (cityNames.all fun g => checkPair "Curitiba" g) = true := by
  decide

set_option maxRecDepth 1000000 in
theorem checkRow9 : (cityNames.all fun g => checkPair "Recife" g) = true := by
  decide

set_option maxRecDepth 1000000 in
theorem checkRow10 : (cityNames.all fun g => checkPair "Belém" g) = true := by
  decide

theorem checkPair_true {s g : City} (hs : s ∈ cityNames) (hg : g ∈ cityNames) :
    checkPair s g = true := by
  simp only [cityNames, brazil_cities, List.map_cons, List.map_nil, List.mem_cons,
    List.not_mem_nil, or_false] at hs
  rcases hs with rfl | rfl | rfl | rfl | rfl | rfl | rfl | rfl | rfl | rfl | rfl
  · exact List.all_eq_true.mp checkRow0 g hg
  · exact List.all_eq_true.mp checkRow1 g hg
  · exact List.all_eq_true.mp checkRow2 g hg
  · exact List.all_eq_true.mp checkRow3 g hg
  · exact List.all_eq_true.mp checkRow4 g hg
  · exact List.all_eq_true.mp checkRow5 g hg
  · exact List.all_eq_true.mp checkRow6 g hg
  · exact List.all_eq_true.mp checkRow7 g hg
  · exact List.all_eq_true.mp checkRow8 g hg
  · exact List.all_eq_true.mp checkRow9 g hg
  · exact List.all_eq_true.mp checkRow10 g hg

theorem checkPair_spec {s g : City} (h : checkPair s g = true) :
    ∃ r, run_astar_test s g 300 = .ok r ∧ r.solution_found = true ∧
      r.path_cost = minCostTo g s := by
  unfold checkPair at h
  split at h
  next r heq =>
    rw [Bool.and_eq_true] at h
    exact ⟨r, heq, h.1, eq_of_beq h.2⟩
  next => simp at h

/-!
## The successor generator, explicitly
-/

theorem successorsLoop_eq (node : SNode) :
    ∀ (lst : List (City × Nat)) (acc : List SNode),
      successorsLoop node lst acc =
        acc ++ lst.map
          (fun p => SNode.child p.1 (node.cost + p.2) node ("drive to " ++ p.1)) := by
  intro lst
  induction lst with
  | nil => intro acc; simp [successorsLoop]
  | cons p rest ih =>
    intro acc
    obtain ⟨city, distance⟩ := p
    rw [successorsLoop, ih]
    simp

/-- `successors` produces exactly one child per adjacency entry, with the
parent's cost plus the edge weight, a parent link to the node, and the
`"drive to …"` action; an absent adjacency entry gives the empty list. -/
theorem successors_eq (node : SNode) :
    successors node = (neighborsOf node.state).map
      (fun p => SNode.child p.1 (node.cost + p.2) node ("drive to " ++ p.1)) := by
  unfold successors neighborsOf
  cases h : roads.lookup node.state with
  | none => simp
  | some lst => simp [successorsLoop_eq]

/-!
## Facts about the fixture tables, checked by evaluation
-/

theorem neighbors_nonempty_all :
    (cityNames.all fun c => !(neighborsOf c).isEmpty) = true := by decide

theorem neighbors_targets_all :
    (cityNames.all fun c =>
      (neighborsOf c).all fun p => decide (p.1 ∈ cityNames)) = true := by decide

theorem coords_isSome_all :
    (cityNames.all fun c => (brazil_cities.lookup c).isSome) = true := by decide

theorem neighbors_nonempty {c : City} (hc : c ∈ cityNames) :
    neighborsOf c ≠ [] := by
  have h := List.all_eq_true.mp neighbors_nonempty_all c hc
  intro he
  rw [he] at h
  simp at h

theorem neighbors_targets {c : City} (hc : c ∈ cityNames) {p : City × Nat}
    (hp : p ∈ neighborsOf c) : p.1 ∈ cityNames :=
  of_decide_eq_true
    (List.all_eq_true.mp (List.all_eq_true.mp neighbors_targets_all c hc) p hp)

theorem coords_isSome {c : City} (hc : c ∈ cityNames) :
    (brazil_cities.lookup c).isSome = true :=
  List.all_eq_true.mp coords_isSome_all c hc

/-!
## The frontier never empties out on the fixture graph
-/

theorem pmerge_good {h1 h2 : PHeap} (g1 : HeapGood h1) (g2 : HeapGood h2) :
    HeapGood (pmerge h1 h2) := by
  obtain ⟨k1, v1, c1⟩ := h1
  obtain ⟨k2, v2, c2⟩ := h2
  cases g1 with | node m1 a1 =>
  cases g2 with | node m2 a2 =>
  have hred : pmerge (.node k1 v1 c1) (.node k2 v2 c2) =
      if leKey k1 k2 then .node k1 v1 (.node k2 v2 c2 :: c1)
      else .node k2 v2 (.node k1 v1 c1 :: c2) := rfl
  rw [hred]
  by_cases hle : leKey k1 k2 = true
  · rw [if_pos hle]
    refine HeapGood.node m1 ?_
    intro h hh
    rcases List.mem_cons.mp hh with rfl | hm
    · exact HeapGood.node m2 a2
    · exact a1 h hm
  · rw [if_neg hle]
    refine HeapGood.node m2 ?_
    intro h hh
    rcases List.mem_cons.mp hh with rfl | hm
    · exact HeapGood.node m1 a1
    · exact a2 h hm

theorem mergePairs_good : ∀ (l : List PHeap), (∀ h ∈ l, HeapGood h) →
    ∀ h', mergePairs l = some h' → HeapGood h'
  | [], _, h', e => by simp [mergePairs] at e
  | [h], hall, h', e => by
    rw [mergePairs] at e
    obtain rfl : h = h' := Option.some.inj e
    exact hall h (List.mem_singleton.mpr rfl)
  | h1 :: h2 :: rest, hall, h', e => by
    have g1 : HeapGood h1 := hall h1 (by simp)
    have g2 : HeapGood h2 := hall h2 (by simp)
    rw [mergePairs] at e
    cases hmp : mergePairs rest with
    | none =>
      rw [hmp] at e
      obtain rfl : pmerge h1 h2 = h' := Option.some.inj e
      exact pmerge_good g1 g2
    | some hh =>
      rw [hmp] at e
      obtain rfl : pmerge (pmerge h1 h2) hh = h' := Option.some.inj e
      have ghh : HeapGood hh :=
        mergePairs_good rest (fun h hm => hall h (by simp [hm])) hh hmp
      exact pmerge_good (pmerge_good g1 g2) ghh

theorem pushNode_good {front : Option PHeap} {n : SNode} {k : FKey}
    (hf : ∀ h, front = some h → HeapGood h) (hn : n.state ∈ cityNames) :
    ∃ h', pushNode front n k = some h' ∧ HeapGood h' := by
  cases front with
  | none =>
    refine ⟨.node k n [], rfl, HeapGood.node hn ?_⟩
    intro h hh
    simp at hh
  | some h =>
    refine ⟨pmerge h (.node k n []), rfl, pmerge_good (hf h rfl) ?_⟩
    refine HeapGood.node hn ?_
    intro h' hh
    simp at hh

theorem pushAll_good (goal : City) : ∀ (cs : List SNode) (front : Option PHeap),
    (∀ c ∈ cs, c.state ∈ cityNames) →
    (∀ h, front = some h → HeapGood h) →
    ∀ res, pushAll goal cs front = some res →
      (∀ h, res = some h → HeapGood h) ∧
        ((cs ≠ [] ∨ front ≠ none) → res ≠ none)
  | [], front, _, hf, res, e => by
    rw [pushAll] at e
    obtain rfl : front = res := Option.some.inj e
    refine ⟨hf, ?_⟩
    rintro (hne | hne)
    · exact absurd rfl hne
    · exact hne
  | c :: cs, front, hcs, hf, res, e => by
    rw [pushAll] at e
    cases hk : nodeKey goal c with
    | none => simp only [hk] at e; exact Option.noConfusion e
    | some k =>
      simp only [hk] at e
      obtain ⟨h', hpn, hgood'⟩ :=
        pushNode_good (n := c) (k := k) hf (hcs c (by simp))
      rw [hpn] at e
      have := pushAll_good goal cs (some h')
        (fun d hd => hcs d (by simp [hd]))
        (fun h hh => (Option.some.inj hh) ▸ hgood') res e
      exact ⟨this.1, fun _ => this.2 (Or.inr (by simp))⟩

theorem bfsLoop_no_exhaust (goal : City) : ∀ (fuel : Nat) (h : PHeap),
    HeapGood h → ∀ (ne gt ne' gt' : Nat),
      bfsLoop goal fuel (some h) ne gt ≠ .ok (none, ne', gt') := by
  intro fuel
  induction fuel with
  | zero =>
    intro h _ ne gt ne' gt'
    obtain ⟨k, n, ch⟩ := h
    simp [bfsLoop]
  | succ fuel ih =>
    intro h hg ne gt ne' gt'
    obtain ⟨k, n, ch⟩ := h
    cases hg with | node hmem hch =>
    rw [bfsLoop]
    by_cases hgoal : n.state = goal
    · simp [hgoal]
    · rw [if_neg hgoal]
      have hchildren : ∀ c ∈ successors n, c.state ∈ cityNames := by
        intro c hc
        rw [successors_eq] at hc
        obtain ⟨p, hp, rfl⟩ := List.mem_map.mp hc
        exact neighbors_targets hmem hp
      have hne2 : successors n ≠ [] := by
        rw [successors_eq]
        intro hemp
        exact neighbors_nonempty hmem (List.map_eq_nil_iff.mp hemp)
      cases hpa : pushAll goal (successors n) (mergePairs ch) with
      | none => simp
      | some res =>
        show bfsLoop goal fuel res (ne + 1) (gt + 1) ≠ _
        obtain ⟨hgood, hnn⟩ := pushAll_good goal (successors n) (mergePairs ch)
          hchildren (fun hh e => mergePairs_good ch hch hh e) res hpa
        cases res with
        | none => exact absurd rfl (hnn (Or.inl hne2))
        | some h' =>
          exact ih h' (hgood h' rfl) (ne + 1) (gt + 1) ne' gt'

theorem run_ok_found (s g : City) (fuel : Nat) (r : AResult)
    (h : run_astar_test s g fuel = .ok r) : r.solution_found = true := by
  unfold run_astar_test at h
  cases hk : nodeKey g (SNode.root s) with
  | none => rw [hk] at h; simp at h
  | some k =>
    simp only [hk] at h
    have hs : s ∈ cityNames := by
      unfold nodeKey at hk
      cases hl : brazil_cities.lookup (SNode.root s).state with
      | none => rw [distRadicand, hl] at hk; simp at hk
      | some p => exact lookup_some_mem_keys (show brazil_cities.lookup s = some p from hl)
    cases hbl : bfsLoop g fuel (some (.node k (SNode.root s) [])) 0 0 with
    | error e => rw [hbl] at h; simp at h
    | ok res =>
      rw [hbl] at h
      obtain ⟨osol, ne, gt⟩ := res
      cases osol with
      | some sol =>
        have h' := Except.ok.inj h
        rw [← h']
      | none =>
        have hroot : HeapGood (.node k (SNode.root s) []) := by
          refine HeapGood.node (show (SNode.root s).state ∈ cityNames from hs) ?_
          intro hh hm
          simp at hm
        exact absurd hbl (by
          intro he
          exact bfsLoop_no_exhaust g fuel _ hroot 0 0 ne gt he)

/-!
## Auxiliary facts for the claims
-/

/-- Any path in the roads table ends at its own start or at some city that
occurs as a target in an adjacency list. -/
theorem walk_ends {v g : City} {c : Nat} (hw : WalkCost v g c) :
    g = v ∨ g ∈ roads.flatMap (fun e => e.2.map Prod.fst) := by
  induction hw with
  | nil x => exact Or.inl rfl
  | @cons a gg b w cb hmem hwtail ih =>
    right
    rcases ih with rfl | hmemT
    · unfold neighborsOf at hmem
      cases hl : roads.lookup a with
      | none => rw [hl] at hmem; simp at hmem
      | some lst =>
        rw [hl] at hmem
        simp only [Option.getD_some] at hmem
        exact List.mem_flatMap.mpr
          ⟨(a, lst), lookup_mem hl, List.mem_map.mpr ⟨(gg, w), hmem, rfl⟩⟩
    · exact hmemT

theorem distRadicand_eq_none_iff (c1 c2 : City) :
    distRadicand c1 c2 = none ↔
      brazil_cities.lookup c1 = none ∨ brazil_cities.lookup c2 = none := by
  unfold distRadicand
  cases h1 : brazil_cities.lookup c1 with
  | none => simp
  | some p1 =>
    obtain ⟨la1, lo1⟩ := p1
    cases h2 : brazil_cities.lookup c2 with
    | none => simp
    | some p2 => obtain ⟨la2, lo2⟩ := p2; simp

/-- The scaled-radicand value agrees with the real-valued distance formula. -/
theorem sqrt_scaling (la1 lo1 la2 lo2 : Int) :
    Real.sqrt (((la2 : ℝ)/100 - (la1 : ℝ)/100)^2
        + ((lo2 : ℝ)/100 - (lo1 : ℝ)/100)^2) * 111
      = 111 * Real.sqrt ((((la2 - la1)^2 + (lo2 - lo1)^2 : Int)).toNat) / 100 := by
  have hnn : (0 : Int) ≤ (la2 - la1)^2 + (lo2 - lo1)^2 := by positivity
  have hcast : ((((la2 - la1)^2 + (lo2 - lo1)^2 : Int).toNat : Nat) : ℝ)
      = ((la2 : ℝ) - la1)^2 + ((lo2 : ℝ) - lo1)^2 := by
    rw [← Int.cast_natCast, Int.toNat_of_nonneg hnn]
    push_cast
    ring
  rw [hcast]
  have hbig : Real.sqrt (((la2 : ℝ) - la1)^2 + ((lo2 : ℝ) - lo1)^2)
      = 100 * Real.sqrt (((la2 : ℝ)/100 - (la1 : ℝ)/100)^2
          + ((lo2 : ℝ)/100 - (lo1 : ℝ)/100)^2) := by
    rw [show ((la2 : ℝ) - la1)^2 + ((lo2 : ℝ) - lo1)^2
        = (100 : ℝ)^2 * (((la2 : ℝ)/100 - (la1 : ℝ)/100)^2
            + ((lo2 : ℝ)/100 - (lo1 : ℝ)/100)^2) by ring]
    rw [Real.sqrt_mul (by positivity), Real.sqrt_sq (by norm_num : (0:ℝ) ≤ 100)]
  rw [hbig]
  ring

/-- `calculate_distance` equals the scaled-radicand representation used by
the executable search: `111·√N/100` on the radicand `N`, with the same
domain of definition. -/
theorem calculate_distance_eq_radicand (c1 c2 : City) :
    calculate_distance c1 c2 = Option.map
      (fun N : Nat => 111 * Real.sqrt (N : ℝ) / 100) (distRadicand c1 c2) := by
  cases h1 : brazil_cities.lookup c1 with
  | none => simp [calculate_distance, distRadicand, h1]
  | some p1 =>
    obtain ⟨la1, lo1⟩ := p1
    cases h2 : brazil_cities.lookup c2 with
    | none => simp [calculate_distance, distRadicand, h1, h2]
    | some p2 =>
      obtain ⟨la2, lo2⟩ := p2
      simp only [calculate_distance, distRadicand, h1, h2, Option.map_some']
      exact congrArg some (sqrt_scaling la1 lo1 la2 lo2)


/-!
## Faithfulness of the executable key ordering

The executable search orders its frontier with `leAddSqrt` on integer pairs.
These lemmas prove that this ordering is exactly the real-number order of
the f-values `g(n) + h(n)` prescribed by the spec, with `h` the real-valued
`calculate_distance`.
-/

theorem leAddSqrt_case_true {a x b y : Nat} (hab : a ≤ b)
    (h1 : x ≤ (b - a)^2 + y) : leAddSqrt a x b y = true := by
  simp [leAddSqrt, hab, h1]

theorem leAddSqrt_case_sq {a x b y : Nat} (hab : a ≤ b)
    (h1 : ¬ x ≤ (b - a)^2 + y) :
    leAddSqrt a x b y = decide ((x - (b - a)^2 - y)^2 ≤ 4 * (b - a)^2 * y) := by
  simp [leAddSqrt, hab, h1]

theorem leAddSqrt_case_sq2 {a x b y : Nat} (hab : ¬ a ≤ b)
    (h1 : x + (a - b)^2 ≤ y) :
    leAddSqrt a x b y = decide (4 * (a - b)^2 * x ≤ (y - x - (a - b)^2)^2) := by
  simp [leAddSqrt, hab, h1]

theorem leAddSqrt_case_false {a x b y : Nat} (hab : ¬ a ≤ b)
    (h1 : ¬ x + (a - b)^2 ≤ y) : leAddSqrt a x b y = false := by
  simp [leAddSqrt, hab, h1]

/-- The integer comparator decides `a + √x ≤ b + √y` exactly over ℝ. -/
theorem leAddSqrt_iff (a x b y : Nat) :
    leAddSqrt a x b y = true ↔
      (a : ℝ) + Real.sqrt (x : ℝ) ≤ (b : ℝ) + Real.sqrt (y : ℝ) := by
  set sx := Real.sqrt (x:ℝ) with hsxdef
  set sy := Real.sqrt (y:ℝ) with hsydef
  have hsx0 : (0:ℝ) ≤ sx := Real.sqrt_nonneg _
  have hsy0 : (0:ℝ) ≤ sy := Real.sqrt_nonneg _
  have hsx2 : sx ^ 2 = (x:ℝ) := Real.sq_sqrt (by positivity)
  have hsy2 : sy ^ 2 = (y:ℝ) := Real.sq_sqrt (by positivity)
  by_cases hab : a ≤ b
  · have hab' : (a:ℝ) ≤ (b:ℝ) := by exact_mod_cast hab
    have hd : ((b - a : ℕ) : ℝ) = (b:ℝ) - (a:ℝ) := by push_cast [hab]; ring
    have hd0 : (0:ℝ) ≤ (b:ℝ) - (a:ℝ) := by linarith
    have hexp : ((b:ℝ) - a + sy)^2 = ((b:ℝ) - a)^2 + 2*((b:ℝ) - a)*sy + y := by
      rw [show ((b:ℝ) - a + sy)^2
          = ((b:ℝ) - a)^2 + 2*((b:ℝ) - a)*sy + sy^2 by ring, hsy2]
    have h2dsy0 : (0:ℝ) ≤ 2*((b:ℝ) - a)*sy :=
      mul_nonneg (mul_nonneg (by norm_num) hd0) hsy0
    have hiff : ((a:ℝ) + sx ≤ (b:ℝ) + sy) ↔ sx ≤ ((b:ℝ) - a) + sy := by
      constructor <;> intro <;> linarith
    rw [hiff]
    by_cases h1 : x ≤ (b - a)^2 + y
    · rw [leAddSqrt_case_true hab h1]
      refine ⟨fun _ => ?_, fun _ => rfl⟩
      have hxle : (x:ℝ) ≤ ((b:ℝ) - a)^2 + y := by
        have hc : (x:ℝ) ≤ (((b - a : ℕ):ℝ))^2 + (y:ℝ) := by exact_mod_cast h1
        rwa [hd] at hc
      have hx2 : (x:ℝ) ≤ (((b:ℝ) - a) + sy)^2 := by rw [hexp]; linarith
      exact le_of_pow_le_pow_left two_ne_zero (add_nonneg hd0 hsy0)
        (by rw [hsx2]; exact hx2)
    · rw [leAddSqrt_case_sq hab h1]
      simp only [decide_eq_true_eq]
      have hdn : (b - a)^2 + y < x := Nat.lt_of_not_le h1
      have hxgt : ((b:ℝ) - a)^2 + y ≤ x := by
        have hc : (((b - a : ℕ):ℝ))^2 + (y:ℝ) ≤ (x:ℝ) := by
          exact_mod_cast le_of_lt hdn
        rwa [hd] at hc
      have he0 : (0:ℝ) ≤ (x:ℝ) - ((b:ℝ) - a)^2 - y := by linarith
      have hesub : ((x - (b - a)^2 - y : ℕ) : ℝ)
          = (x:ℝ) - ((b:ℝ) - a)^2 - (y:ℝ) := by
        rw [Nat.sub_sub, Nat.cast_sub (le_of_lt hdn)]
        push_cast [hd]
        ring
      have hcast4 : ((4 * (b - a)^2 * y : ℕ) : ℝ) = 4 * ((b:ℝ) - a)^2 * y := by
        push_cast [hd]
        ring
      have h4 : (2*((b:ℝ) - a)*sy)^2 = 4*((b:ℝ) - a)^2*y := by
        rw [show (2*((b:ℝ) - a)*sy)^2 = 4*((b:ℝ) - a)^2*sy^2 by ring, hsy2]
      constructor
      · intro hnat
        have hc := (Nat.cast_le (α := ℝ)).mpr hnat
        rw [Nat.cast_pow, hesub, hcast4] at hc
        have h2dsy : (x:ℝ) - ((b:ℝ) - a)^2 - y ≤ 2*((b:ℝ) - a)*sy :=
          le_of_pow_le_pow_left two_ne_zero h2dsy0 (by rw [h4]; exact hc)
        have hx2 : (x:ℝ) ≤ (((b:ℝ) - a) + sy)^2 := by rw [hexp]; linarith
        exact le_of_pow_le_pow_left two_ne_zero (add_nonneg hd0 hsy0)
          (by rw [hsx2]; exact hx2)
      · intro hreal
        have hx2 : (x:ℝ) ≤ (((b:ℝ) - a) + sy)^2 := by
          rw [← hsx2]
          exact pow_le_pow_left hsx0 hreal 2
        have he2dsy : (x:ℝ) - ((b:ℝ) - a)^2 - y ≤ 2*((b:ℝ) - a)*sy := by
          rw [hexp] at hx2
          linarith
        have hsq : ((x:ℝ) - ((b:ℝ) - a)^2 - y)^2 ≤ 4*((b:ℝ) - a)^2*y := by
          calc ((x:ℝ) - ((b:ℝ) - a)^2 - y)^2 ≤ (2*((b:ℝ) - a)*sy)^2 :=
              pow_le_pow_left he0 he2dsy 2
          _ = 4*((b:ℝ) - a)^2*y := h4
        have hc : (((x - (b - a)^2 - y : ℕ)):ℝ)^2
            ≤ ((4 * (b - a)^2 * y : ℕ) : ℝ) := by
          rw [hesub, hcast4]
          exact hsq
        exact_mod_cast hc
  · have hba : b ≤ a := le_of_not_le hab
    have hba' : (b:ℝ) ≤ (a:ℝ) := by exact_mod_cast hba
    have hd : ((a - b : ℕ) : ℝ) = (a:ℝ) - (b:ℝ) := by push_cast [hba]; ring
    have hd0 : (0:ℝ) ≤ (a:ℝ) - (b:ℝ) := by linarith
    have hexp : ((a:ℝ) - b + sx)^2 = ((a:ℝ) - b)^2 + 2*((a:ℝ) - b)*sx + x := by
      rw [show ((a:ℝ) - b + sx)^2
          = ((a:ℝ) - b)^2 + 2*((a:ℝ) - b)*sx + sx^2 by ring, hsx2]
    have h2dsx0 : (0:ℝ) ≤ 2*((a:ℝ) - b)*sx :=
      mul_nonneg (mul_nonneg (by norm_num) hd0) hsx0
    have hiff : ((a:ℝ) + sx ≤ (b:ℝ) + sy) ↔ ((a:ℝ) - b) + sx ≤ sy := by
      constructor <;> intro <;> linarith
    rw [hiff]
    by_cases h1 : x + (a - b)^2 ≤ y
    · rw [leAddSqrt_case_sq2 hab h1]
      simp only [decide_eq_true_eq]
      have hyc : (x:ℝ) + ((a:ℝ) - b)^2 ≤ y := by
        have hc : (x:ℝ) + (((a - b : ℕ):ℝ))^2 ≤ (y:ℝ) := by exact_mod_cast h1
        rwa [hd] at hc
      have he0 : (0:ℝ) ≤ (y:ℝ) - x - ((a:ℝ) - b)^2 := by linarith
      have hesub : ((y - x - (a - b)^2 : ℕ) : ℝ)
          = (y:ℝ) - (x:ℝ) - ((a:ℝ) - b)^2 := by
        rw [Nat.sub_sub, Nat.cast_sub (by omega : x + (a - b)^2 ≤ y)]
        push_cast [hd]
        ring
      have hcast4 : ((4 * (a - b)^2 * x : ℕ) : ℝ) = 4 * ((a:ℝ) - b)^2 * x := by
        push_cast [hd]
        ring
      have h4 : (2*((a:ℝ) - b)*sx)^2 = 4*((a:ℝ) - b)^2*x := by
        rw [show (2*((a:ℝ) - b)*sx)^2 = 4*((a:ℝ) - b)^2*sx^2 by ring, hsx2]
      constructor
      · intro hnat
        have hc := (Nat.cast_le (α := ℝ)).mpr hnat
        rw [Nat.cast_pow, hesub, hcast4] at hc
        have h2dsx : 2*((a:ℝ) - b)*sx ≤ (y:ℝ) - x - ((a:ℝ) - b)^2 :=
          le_of_pow_le_pow_left two_ne_zero he0 (by rw [h4]; exact hc)
        have hy2 : (((a:ℝ) - b) + sx)^2 ≤ (y:ℝ) := by rw [hexp]; linarith
        exact le_of_pow_le_pow_left two_ne_zero hsy0 (by rw [hsy2]; exact hy2)
      · intro hreal
        have hy2 : (((a:ℝ) - b) + sx)^2 ≤ (y:ℝ) := by
          rw [← hsy2]
          exact pow_le_pow_left (add_nonneg hd0 hsx0) hreal 2
        have h2dsx : 2*((a:ℝ) - b)*sx ≤ (y:ℝ) - x - ((a:ℝ) - b)^2 := by
          rw [hexp] at hy2
          linarith
        have hsq : 4*((a:ℝ) - b)^2*x ≤ ((y:ℝ) - x - ((a:ℝ) - b)^2)^2 := by
          calc 4*((a:ℝ) - b)^2*x = (2*((a:ℝ) - b)*sx)^2 := h4.symm
          _ ≤ ((y:ℝ) - x - ((a:ℝ) - b)^2)^2 := pow_le_pow_left h2dsx0 h2dsx 2
        have hc : ((4 * (a - b)^2 * x : ℕ) : ℝ)
            ≤ (((y - x - (a - b)^2 : ℕ)):ℝ)^2 := by
          rw [hesub, hcast4]
          exact hsq
        exact_mod_cast hc
    · rw [leAddSqrt_case_false hab h1]
      simp only [Bool.false_eq_true, false_iff]
      intro hcon
      have hyc : (y:ℝ) < (x:ℝ) + ((a:ℝ) - b)^2 := by
        have hdn : y < x + (a - b)^2 := Nat.lt_of_not_le h1
        have hc : (y:ℝ) < (x:ℝ) + (((a - b : ℕ):ℝ))^2 := by exact_mod_cast hdn
        rwa [hd] at hc
      have hy2 : (((a:ℝ) - b) + sx)^2 ≤ (y:ℝ) := by
        rw [← hsy2]
        exact pow_le_pow_left (add_nonneg hd0 hsx0) hcon 2
      rw [hexp] at hy2
      linarith

/-- The frontier ordering is the real-number order of the encoded f-values. -/
theorem leKey_iff (k1 k2 : FKey) :
    leKey k1 k2 = true ↔
      ((k1.1 : ℝ) + Real.sqrt (k1.2 : ℝ)) / 100
        ≤ ((k2.1 : ℝ) + Real.sqrt (k2.2 : ℝ)) / 100 := by
  rw [leKey, leAddSqrt_iff]
  constructor <;> intro h <;> linarith

/-- A node's key denotes exactly `f(n) = n.cost() + heuristic(n, goal)`. -/
theorem nodeKey_interp (goal : City) (n : SNode) (k : FKey)
    (hk : nodeKey goal n = some k) :
    ∃ hval : ℝ, calculate_distance n.state goal = some hval ∧
      ((k.1 : ℝ) + Real.sqrt (k.2 : ℝ)) / 100 = (n.cost : ℝ) + hval := by
  unfold nodeKey at hk
  cases hN : distRadicand n.state goal with
  | none => rw [hN] at hk; simp at hk
  | some N =>
    rw [hN] at hk
    obtain rfl : (100 * n.cost, 12321 * N) = k := by simpa using hk
    refine ⟨111 * Real.sqrt (N:ℝ) / 100, ?_, ?_⟩
    · rw [calculate_distance_eq_radicand, hN]
      rfl
    · have hs : Real.sqrt ((12321 * N : ℕ) : ℝ) = 111 * Real.sqrt (N:ℝ) := by
        push_cast
        rw [show ((12321:ℝ) * N) = 111^2 * N by norm_num]
        rw [Real.sqrt_mul (by positivity), Real.sqrt_sq (by norm_num : (0:ℝ) ≤ 111)]
      show ((100 * n.cost : ℕ) + Real.sqrt (((12321 * N : ℕ) : ℕ) : ℝ)) / 100 = _
      rw [hs]
      push_cast
      ring

/-!
## The claims
-/

/-- C2 (code_bug): the spec's symmetry invariant fails at exactly one pair:
`roads['Porto Alegre']` lists `('São Paulo', 1130)`, but `roads['São Paulo']`
has no Porto Alegre entry at all. -/
theorem roads_symmetry_fails_porto_alegre :
    (("São Paulo", 1130) ∈ neighborsOf "Porto Alegre") ∧
      ((neighborsOf "São Paulo").all fun p => p.1 != "Porto Alegre") = true :=
  ⟨by decide, by decide⟩

/-- C3 (counterexample): `calculate_distance` on a city absent from the
coordinate table raises `KeyError` (modelled `none`) instead of returning 0
as the claim states. -/
theorem calculate_distance_unknown_city_raises :
    calculate_distance "São Paulo" "Gotham City" = none := rfl

/-- C3 (amended): `calculate_distance` returns the Euclidean distance between
the two cities' coordinates scaled by 111 when both are present in the
coordinate table, and raises `KeyError` (no value) exactly when either city
is absent.  The second conjunct also certifies the scaled-radicand
representation used by the executable search. -/
theorem calculate_distance_behavior (c1 c2 : City) :
    (calculate_distance c1 c2 = none ↔
      brazil_cities.lookup c1 = none ∨ brazil_cities.lookup c2 = none) ∧
    calculate_distance c1 c2 = Option.map
      (fun N : Nat => 111 * Real.sqrt (N : ℝ) / 100) (distRadicand c1 c2) := by
  have hmap := calculate_distance_eq_radicand c1 c2
  refine ⟨?_, hmap⟩
  rw [hmap, Option.map_eq_none', distRadicand_eq_none_iff]

/-- C4 (counterexample): a query whose goal city is absent from both tables
raises `KeyError` instead of returning a no-solution record. -/
theorem unknown_city_search_raises_counterexample :
    run_astar_test "São Paulo" "Atlantis" 100 = .error .keyError := by decide

/-- C4 (amended): for every query whose start or goal city is absent from
both the roads table and the coordinate table, the call raises an uncaught
`KeyError` from the heuristic (the `try` only catches `StopIteration`), for
any fuel; it never returns a result record. -/
theorem unknown_city_search_raises (s g : City) (fuel : Nat)
    (h : (roads.lookup s = none ∧ brazil_cities.lookup s = none) ∨
         (roads.lookup g = none ∧ brazil_cities.lookup g = none)) :
    run_astar_test s g fuel = .error .keyError := by
  have hkey : nodeKey g (SNode.root s) = none := by
    unfold nodeKey distRadicand
    rcases h with ⟨_, h1⟩ | ⟨_, h2⟩
    · simp [SNode.state, h1]
    · cases hl : brazil_cities.lookup (SNode.root s).state with
      | none => simp [hl]
      | some p => obtain ⟨la, lo⟩ := p; simp [hl, h2]
  unfold run_astar_test
  rw [hkey]

theorem unknown_city_search_raises_witness :
    run_astar_test "Curitiba" "Gotham City" 7 = .error .keyError :=
  unknown_city_search_raises "Curitiba" "Gotham City" 7
    (Or.inr ⟨by decide, by decide⟩)

/-- C5 (counterexample): a query with no path from start to goal (here:
to a city absent from the graph) raises `KeyError`; it does not return the
failure record the claim describes. -/
theorem no_path_query_counterexample :
    run_astar_test "Curitiba" "Nowhere" 300 = .error .keyError ∧
      ¬∃ c, WalkCost "Curitiba" "Nowhere" c := by
  refine ⟨by decide, ?_⟩
  rintro ⟨c, hw⟩
  rcases walk_ends hw with h | h
  · exact absurd h (by decide)
  · exact absurd h (by decide)

/-- C5 (amended): on this fixture no call ever returns the failure record:
every returned record has `solution_found = true`.  (A query between two
table cities always has a path and succeeds; a query involving an unknown
city raises `KeyError` in the heuristic before the frontier can empty; the
`StopIteration` branch that would return `path_cost = ∞`, `path_length = 0`,
an empty path and the accumulated counters is unreachable.) -/
theorem no_failure_record_returned (s g : City) (fuel : Nat) (r : AResult)
    (h : run_astar_test s g fuel = .ok r) : r.solution_found = true :=
  run_ok_found s g fuel r h

theorem no_failure_record_returned_witness :
    ({ solution_found := true, path_cost := some 0, path_length := 0,
       goal_tests := 1, nodes_expanded := 0, path := [] } : AResult).solution_found
      = true :=
  no_failure_record_returned "São Paulo" "São Paulo" 1 _ (by decide)

/-- C6: searching with goal equal to start goal-tests the root first and
returns immediately with cost 0, an empty path of length 0, exactly one goal
test and no node expansion, for every fixture city and any positive fuel. -/
theorem search_goal_equals_start (x : City) (hx : x ∈ cityNames) (fuel : Nat) :
    run_astar_test x x (fuel + 1) = .ok
      { solution_found := true, path_cost := some 0, path_length := 0,
        goal_tests := 1, nodes_expanded := 0, path := [] } := by
  obtain ⟨p, hp⟩ := Option.isSome_iff_exists.mp (coords_isSome hx)
  obtain ⟨la, lo⟩ := p
  cases hk : nodeKey x (SNode.root x) with
  | none =>
    rw [nodeKey, distRadicand] at hk
    simp [SNode.state, hp] at hk
  | some k =>
    unfold run_astar_test
    simp only [hk]
    rw [bfsLoop, if_pos (show (SNode.root x).state = x from rfl)]
    rfl

theorem search_goal_equals_start_witness :
    run_astar_test "Belém" "Belém" 1 = .ok
      { solution_found := true, path_cost := some 0, path_length := 0,
        goal_tests := 1, nodes_expanded := 0, path := [] } :=
  search_goal_equals_start "Belém" (by decide) 0

/-- C7: the successor generator produces exactly one child per adjacency
entry `(n, w)` of the node's city — with cumulative cost `parent.cost + w`,
parent link to the node, and action `"drive to n"` — and the empty list for
a city with no adjacency entry (`neighborsOf` is then `[]`). -/
theorem successors_one_child_per_neighbor (node : SNode) :
    successors node = (neighborsOf node.state).map
      (fun p => SNode.child p.1 (node.cost + p.2) node ("drive to " ++ p.1)) :=
  successors_eq node

/-- C8: two consecutive calls on the unmodified graph return identical
results (same `path_cost`, `path_length`, `nodes_expanded`, `goal_tests`):
the tables are immutable and each call builds a fresh problem and counters. -/
theorem search_idempotent (s g : City) (fuel : Nat) :
    (runTwice s g fuel).1 = (runTwice s g fuel).2 := rfl

/-- C9: the heuristic is symmetric in its arguments whenever both cities are
present in the coordinate table. -/
theorem heuristic_symmetric (a b : City)
    (ha : (brazil_cities.lookup a).isSome = true)
    (hb : (brazil_cities.lookup b).isSome = true) :
    calculate_distance a b = calculate_distance b a := by
  obtain ⟨⟨la1, lo1⟩, hpa⟩ := Option.isSome_iff_exists.mp ha
  obtain ⟨⟨la2, lo2⟩, hpb⟩ := Option.isSome_iff_exists.mp hb
  simp only [calculate_distance, hpa, hpb]
  congr 1
  rw [show (((la2 : ℝ)/100 - (la1 : ℝ)/100)^2 + ((lo2 : ℝ)/100 - (lo1 : ℝ)/100)^2)
      = (((la1 : ℝ)/100 - (la2 : ℝ)/100)^2 + ((lo1 : ℝ)/100 - (lo2 : ℝ)/100)^2)
    by ring]

theorem heuristic_symmetric_witness :
    calculate_distance "São Paulo" "Rio de Janeiro"
      = calculate_distance "Rio de Janeiro" "São Paulo" :=
  heuristic_symmetric "São Paulo" "Rio de Janeiro" (by decide) (by decide)

/-- C10: every edge weight in the hardcoded roads table is strictly
positive, and therefore every child produced by the successor generator has
cumulative cost strictly greater than its parent's. -/
theorem weights_positive_cost_increasing :
    (∀ e ∈ roads, ∀ p ∈ e.2, 0 < p.2) ∧
      ∀ (n : SNode), ∀ c ∈ successors n, n.cost < c.cost := by
  have hpos : ∀ e ∈ roads, ∀ p ∈ e.2, 0 < p.2 := by decide
  refine ⟨hpos, ?_⟩
  intro n c hc
  rw [successors_eq] at hc
  obtain ⟨p, hp, rfl⟩ := List.mem_map.mp hc
  have hppos : 0 < p.2 := by
    unfold neighborsOf at hp
    cases hl : roads.lookup n.state with
    | none => rw [hl] at hp; simp at hp
    | some lst =>
      rw [hl] at hp
      simp only [Option.getD_some] at hp
      exact hpos (n.state, lst) (lookup_mem hl) p hp
  show n.cost < SNode.cost (SNode.child p.1 (n.cost + p.2) n ("drive to " ++ p.1))
  simp only [SNode.cost]
  omega

theorem weights_positive_cost_increasing_witness :
    (0 < 1130) ∧ (SNode.root "São Paulo").cost <
      (SNode.child "Rio de Janeiro" ((SNode.root "São Paulo").cost + 430)
        (SNode.root "São Paulo") "drive to Rio de Janeiro").cost :=
  ⟨weights_positive_cost_increasing.1
      ("Porto Alegre", [("São Paulo", 1130), ("Curitiba", 710)]) (by decide)
      ("São Paulo", 1130) (by decide),
   weights_positive_cost_increasing.2 (SNode.root "São Paulo") _ (by decide)⟩

/-- C1: for every start and goal city in the graph such that a path exists
from start to goal, the search returns a record with `solution_found = true`
and `path_cost` equal to the minimum sum of edge weights over all paths from
start to goal in the roads adjacency table. -/
theorem astar_returns_minimum_cost (s g : City)
    (hs : s ∈ cityNames) (hg : g ∈ cityNames) (hpath : ∃ c, WalkCost s g c) :
    ∃ r c, run_astar_test s g 300 = .ok r ∧ r.solution_found = true ∧
      r.path_cost = some c ∧ IsMinWalkCost s g c := by
  obtain ⟨r, hrun, hfound, hcost⟩ := checkPair_spec (checkPair_true hs hg)
  obtain ⟨c0, hw⟩ := hpath
  obtain ⟨d, hd, _⟩ := distTab_complete hg hw
  have hmin : minCostTo g s = some d := hd
  exact ⟨r, d, hrun, hfound, by rw [hcost, hmin], minCostTo_spec hg hmin⟩

theorem astar_returns_minimum_cost_witness :
    ∃ r c, run_astar_test "São Paulo" "Rio de Janeiro" 300 = .ok r ∧
      r.solution_found = true ∧ r.path_cost = some c ∧
      IsMinWalkCost "São Paulo" "Rio de Janeiro" c :=
  astar_returns_minimum_cost "São Paulo" "Rio de Janeiro" (by decide) (by decide)
    ⟨430 + 0, WalkCost.cons (by decide) (WalkCost.nil "Rio de Janeiro")⟩

end PySearchAStar
